import Mathlib

/-!
Verification development for the `to_dict` serialization engine
(`to_dict/serializer.py`): a recursive, schema-filtered conversion of an
object graph into a JSON-compatible tree.

The embedding below follows the Python source closely:

* the schema store `Serializer._keys` (a Python dict from head key to a list
  of tail segment-lists) is modelled as an insertion-ordered association list
  `Store`;
* `Serializer._set_schema`, `_get_sub_schema`, `_is_valid` and
  `merge_schemas` are translated function by function;
* the recursive dispatch `Serializer.__call__` (with `serialize_iter`,
  `serialize_model`, `serialize_dict` and `_fork`) is modelled by `callF`,
  a fuel-indexed total function: the fuel only bounds recursion depth
  (the Python recursion is call-stack bounded, spec section 5), and every
  theorem supplies enough fuel for the values it mentions;
* exceptions are modelled with `Except`: `SErr.notSerializable` is
  `IsNotSerializable`, `SErr.configError` is the bare `Exception` raised in
  `_get_sub_schema`.  Python exceptions do not roll back state, so every
  serializer operation threads the store explicitly and returns it next to
  the `Except` result.
-/

namespace ToDict

/-- `Serializer._NEGATION`. -/
def NEGATION : String := "-"

/-- `Serializer._WILDCARD`. -/
def WILDCARD : String := "*"

/-- `Serializer._DELIM`. -/
def DELIM : String := "."

/-- Python `s.startswith(pre)`, as a prefix test on the character lists. -/
def strStartsWith (s pre : String) : Bool :=
  pre.data.isPrefixOf s.data

/-- `Serializer._negate`: prepend the negation marker. -/
def negate (key : String) : String := NEGATION ++ key

/-- `Serializer._is_negation`: does the key start with the negation marker. -/
def is_negation (key : String) : Bool := strStartsWith key NEGATION

/-- `Serializer._admit`: strip one leading negation marker
(Python `key[len(self._NEGATION):]`, i.e. drop one character). -/
def admitKey (key : String) : String :=
  if is_negation key then String.mk (key.data.drop NEGATION.length) else key

/-- Python `k.split('.')` where the delimiter is the single character of
`_DELIM`; `""` splits to `[""]`, `"a..b"` to `["a", "", "b"]`. -/
def splitCharsAux : List Char → List Char → List (List Char)
  | [], acc => [acc.reverse]
  | c :: cs, acc =>
    if c = '.' then acc.reverse :: splitCharsAux cs []
    else splitCharsAux cs (c :: acc)

/-- `k.split(self._DELIM)` on a string. -/
def splitDelim (s : String) : List String :=
  (splitCharsAux s.data []).map String.mk

/-- Python `self._DELIM.join(parts)`. -/
def joinDelim : List String → String
  | [] => ""
  | [p] => p
  | p :: ps => p ++ DELIM ++ joinDelim ps

/-- The schema store `Serializer._keys`: a Python dict from a head key to
the list of stored tails (each tail a list of path segments).  A Python dict
preserves insertion order and has unique keys; it is modelled as an
insertion-ordered association list. -/
abbrev Store := List (String × List (List String))

/-- Python `self._keys.get(k)` / `k in self._keys`: first (unique) match. -/
def storeLookup (s : Store) (k : String) : Option (List (List String)) :=
  match s with
  | [] => none
  | (k1, v) :: rest => if k1 = k then some v else storeLookup rest k

/-- Python `self._keys[k] = v`: overwrite the entry if the key is present,
otherwise append a new entry at the end (dict insertion order). -/
def storeSet (s : Store) (k : String) (v : List (List String)) : Store :=
  match s with
  | [] => [(k, v)]
  | (k1, v1) :: rest =>
    if k1 = k then (k1, v) :: rest else (k1, v1) :: storeSet rest k v

/-- One iteration of the loop in `Serializer._set_schema`:
`head, *tail = k.split(DELIM)`; if `head` is already stored, append `tail`
only when it is non-empty; otherwise create the entry with `[tail]` when the
tail is non-empty and with `[]` when it is empty. -/
def set_schema_key (s : Store) (k : String) : Store :=
  match splitDelim k with
  | [] => s
  | head :: tail =>
    match storeLookup s head with
    | some tails => if tail ≠ [] then storeSet s head (tails ++ [tail]) else s
    | none => storeSet s head (if tail ≠ [] then [tail] else [])

/-- `Serializer._set_schema`: load a list of path strings into the store. -/
def set_schema (s : Store) (keys : List String) : Store :=
  keys.foldl set_schema_key s

/-- `Serializer._is_valid`: the visibility decision for one key.  The source
reads: if the negated key is stored with an empty tail list, refuse; else if
the wildcard is stored, accept; else accept when the key is stored, or when
the greedy flag is set and the key does not start with an underscore. -/
def is_valid (greedy : Bool) (s : Store) (key : String) : Bool :=
  if storeLookup s (negate key) = some [] then false
  else if (storeLookup s WILDCARD).isSome then true
  else (storeLookup s key).isSome || (greedy && !(strStartsWith key "_"))

/-- Errors of the engine: `IsNotSerializable`, and the bare `Exception`
raised inside `_get_sub_schema` (the configuration error). -/
inductive SErr where
  | notSerializable : SErr
  | configError : SErr

/-- The in-place update `k[0] = self._negate(k[0])` performed on a stored
tail by `_get_sub_schema`: the negation marker moves to the tail's first
segment. -/
def negateHead : List String → List String
  | [] => []
  | h :: t => negate h :: t

/-- The loop of `_get_sub_schema` over the tails stored under the negated
key: an empty tail raises the configuration error
(`Excluded KEY has no access to subkeys`); a non-empty tail has its first
segment negated in place and is collected. -/
def processNegTails : List (List String) → Except SErr (List (List String))
  | [] => .ok []
  | t :: ts =>
    if t = [] then .error .configError
    else
      match processNegTails ts with
      | .error e => .error e
      | .ok rest => .ok (negateHead t :: rest)

/-- `Serializer._get_sub_schema`: build the path-string list handed to the
nested traversal for `key`.  Non-empty tails stored under the plain key are
kept; tails stored under the negated key are mutated in place (their first
segment gets the negation marker) and appended.  Because the tails are
mutated in place, the store itself changes: the result carries the store
after the call next to the produced sub-schema. -/
def get_sub_schema (s : Store) (key : String) : Except SErr (Store × List String) :=
  let plain := ((storeLookup s key).getD []).filter (fun t => t ≠ [])
  match processNegTails ((storeLookup s (negate key)).getD []) with
  | .error e => .error e
  | .ok negTails1 =>
    let s1 :=
      match storeLookup s (negate key) with
      | some _ => storeSet s (negate key) negTails1
      | none => s
    .ok (s1, (plain ++ negTails1).map joinDelim)

/-- One `res.add(k)` step of `Serializer.merge_schemas`, on the result set:
adding a negated key first removes the un-negated form if present, adding a
plain key first removes the negated form if present.  The Python result is a
`set`; it is modelled as a duplicate-free list in insertion order, whose
membership coincides with the set's. -/
def addKey (res : List String) (k : String) : List String :=
  let res1 :=
    if is_negation k then
      (if admitKey k ∈ res then res.erase (admitKey k) else res)
    else
      (if negate k ∈ res then res.erase (negate k) else res)
  if k ∈ res1 then res1 else res1 ++ [k]

/-- `Serializer.merge_schemas(*args)`: priority grows from left to right.
The source reverses the argument list and pops from its end, which processes
the argument lists in their original order; the fold below does the same. -/
def merge_schemas (args : List (List String)) : List String :=
  args.foldl (fun res keys => keys.foldl addKey res) []

/-- The runtime values the dispatch of `Serializer.__call__` distinguishes.
`vmodel` is a `SerializerMixin` instance carrying its static `__schema__`
and its fields (`get_model_keys` enumerates the names in order, `getattr`
fetches each value); `vthunk` is a callable resolving to its payload;
`vother` is any value of none of the recognized shapes.  `vfloat` keeps an
opaque payload (its numeric content never matters to the engine), `vdate`
and `vdatetime` keep an opaque timestamp. -/
inductive Value where
  | vint (n : Int)
  | vstr (s : String)
  | vfloat (payload : String)
  | vbytes (bs : List Nat)
  | vbool (b : Bool)
  | vnone
  | vdatetime (t : Nat)
  | vdate (t : Nat)
  | vlist (items : List Value)
  | vdict (pairs : List (String × Value))
  | vmodel (schema : List String) (fields : List (String × Value))
  | vthunk (v : Value)
  | vother

/-- `isinstance(value, self.simple_types)` for
`simple_types = (int, str, float, bytes, bool, type(None))`. -/
def isSimple : Value → Bool
  | .vint _ => true
  | .vstr _ => true
  | .vfloat _ => true
  | .vbytes _ => true
  | .vbool _ => true
  | .vnone => true
  | _ => false

/-- The shapes the dispatch recognizes (primitive, datetime, date, iterable,
serializable object, mapping); a callable left after the one resolution step
and any other value are unrecognized and raise `IsNotSerializable`. -/
def recognizedShape : Value → Bool
  | .vthunk _ => false
  | .vother => false
  | _ => true

/-- `if callable(value): value = value()` — performed once, not in a loop. -/
def resolveCallable : Value → Value
  | .vthunk v => v
  | v => v

/-- The keyword configuration of a `Serializer` instance (`self.kwargs`),
with the same optional keys the constructor documents. -/
structure Config where
  is_greedy : Option Bool
  date_format : Option String
  datetime_format : Option String
  to_user_tz : Option Bool

/-- `Serializer.is_greedy`: `bool(self.kwargs.get('is_greedy', True))`. -/
def Config.isGreedy (c : Config) : Bool := c.is_greedy.getD true

/-- `Serializer.to_user_tz`: `bool(self.kwargs.get('to_user_tz', False))`. -/
def Config.toUserTz (c : Config) : Bool := c.to_user_tz.getD false

/-- `Serializer.datetime_format`: the configured pattern, with Python `or`
semantics (a missing key and an empty string both fall back to the
default pattern). -/
def Config.datetimeFormat (c : Config) : String :=
  match c.datetime_format with
  | some s => if s = "" then "%Y-%m-%d %H:%M" else s
  | none => "%Y-%m-%d %H:%M"

/-- `Serializer.date_format`, with the same Python `or` fallback. -/
def Config.dateFormat (c : Config) : String :=
  match c.date_format with
  | some s => if s = "" then "%Y-%m-%d" else s
  | none => "%Y-%m-%d"

/-- External collaborator (spec section 6): `value.strftime(fmt)`.  Modelled
as an opaque but concrete formatter; no claim depends on its output. -/
def strftime (t : Nat) (fmt : String) : String :=
  "strftime:" ++ fmt ++ ":" ++ toString t

/-- External collaborator (spec section 6): `lib.timezones.to_local_time`. -/
def to_local_time (t : Nat) : Nat := t

/-- External collaborator (spec section 6):
`lib.timezones.format_datetime(value, fmt, rebase=False)`. -/
def format_datetime (t : Nat) (fmt : String) : String :=
  "format_datetime:" ++ fmt ++ ":" ++ toString t

/-- External collaborator (spec section 6):
`lib.timezones.format_date(value, fmt, rebase=False)`. -/
def format_date (t : Nat) (fmt : String) : String :=
  "format_date:" ++ fmt ++ ":" ++ toString t

/-- `Serializer.serialize_datetime`. -/
def serialize_datetime (c : Config) (t : Nat) : String :=
  if c.toUserTz then format_datetime (to_local_time t) c.datetimeFormat
  else strftime t c.datetimeFormat

/-- `Serializer.serialize_date`. -/
def serialize_date (c : Config) (t : Nat) : String :=
  if c.toUserTz then format_date t c.dateFormat
  else strftime t c.dateFormat

/-- The loop of `Serializer.serialize_iter`: each element is serialized by a
recursive `self(v)` on the same instance (`recur` threads that instance's
store); an `IsNotSerializable` raised by an element is caught and the
element skipped, any other exception propagates and discards the partial
list.  `none` is fuel exhaustion of the model and propagates. -/
def serialize_iter
    (recur : Store → Value → Option (Store × Except SErr Value)) :
    Store → List Value → Option (Store × Except SErr (List Value))
  | store, [] => some (store, .ok [])
  | store, v :: rest =>
    match recur store v with
    | none => none
    | some (s1, .error .notSerializable) => serialize_iter recur s1 rest
    | some (s1, .error .configError) => some (s1, .error .configError)
    | some (s1, .ok x) =>
      match serialize_iter recur s1 rest with
      | none => none
      | some (s2, .error e) => some (s2, .error e)
      | some (s2, .ok xs) => some (s2, .ok (x :: xs))

/-- `Serializer._fork`: a primitive value is returned unchanged; otherwise a
fresh `Serializer` with the same kwargs and an empty store serializes the
value under the sub-schema computed by `_get_sub_schema` on the parent
instance (which may mutate the parent store — the returned store is the
parent's).  A raise inside `_get_sub_schema` propagates; the store paired
with it is never observed by the surviving Python code, the model returns
the pre-call store there. -/
def forkF
    (recur : Store → Value → List String → Option (Store × Except SErr Value))
    (store : Store) (key : String) (value : Value) :
    Option (Store × Except SErr Value) :=
  if isSimple value then some (store, .ok value)
  else
    match get_sub_schema store key with
    | .error e => some (store, .error e)
    | .ok (store1, sub) =>
      match recur [] value sub with
      | none => none
      | some (_, r) => some (store1, r)

/-- The shared loop of `Serializer.serialize_model` and
`Serializer.serialize_dict`: for each key (model field enumeration order or
dict insertion order), keys rejected by `_is_valid` are skipped, accepted
keys are forked; an exception discards the partially built result and
propagates.  `_is_valid` and the fork both see the store as mutated by the
forks of earlier keys. -/
def serialize_keyed
    (fork1 : Store → String → Value → Option (Store × Except SErr Value))
    (greedy : Bool) :
    Store → List (String × Value) →
      Option (Store × Except SErr (List (String × Value)))
  | store, [] => some (store, .ok [])
  | store, (k, v) :: rest =>
    if is_valid greedy store k then
      match fork1 store k v with
      | none => none
      | some (s1, .error e) => some (s1, .error e)
      | some (s1, .ok x) =>
        match serialize_keyed fork1 greedy s1 rest with
        | none => none
        | some (s2, .error e) => some (s2, .error e)
        | some (s2, .ok xs) => some (s2, .ok ((k, x) :: xs))
    else serialize_keyed fork1 greedy store rest

/-- One dispatch layer of `Serializer.__call__`, after the callable
resolution, with `recur` standing for a recursive invocation.  The branch
order of the source is kept.  In particular `isinstance(value, Iterable)` is
checked before `isinstance(value, dict)`, and a Python dict *is* `Iterable`
(iterating it yields its keys), so a `vdict` is handled by `serialize_iter`
over its keys and the `elif isinstance(value, dict)` branch with
`serialize_dict` is unreachable. -/
def serializeCall (c : Config)
    (recur : Store → Value → List String → Option (Store × Except SErr Value))
    (store : Store) (value : Value) (schema : List String) :
    Option (Store × Except SErr Value) :=
  match value with
  | .vint n => some (store, .ok (.vint n))
  | .vstr s => some (store, .ok (.vstr s))
  | .vfloat p => some (store, .ok (.vfloat p))
  | .vbytes bs => some (store, .ok (.vbytes bs))
  | .vbool b => some (store, .ok (.vbool b))
  | .vnone => some (store, .ok .vnone)
  | .vdatetime t => some (store, .ok (.vstr (serialize_datetime c t)))
  | .vdate t => some (store, .ok (.vstr (serialize_date c t)))
  | .vlist items =>
    match serialize_iter (fun s v => recur s v []) store items with
    | none => none
    | some (s1, .error e) => some (s1, .error e)
    | some (s1, .ok xs) => some (s1, .ok (.vlist xs))
  | .vdict pairs =>
    match serialize_iter (fun s v => recur s v [])
        store (pairs.map (fun p => Value.vstr p.1)) with
    | none => none
    | some (s1, .error e) => some (s1, .error e)
    | some (s1, .ok xs) => some (s1, .ok (.vlist xs))
  | .vmodel msch fields =>
    let store1 := set_schema store (merge_schemas [msch, schema])
    match serialize_keyed
        (fun s k v => forkF recur s k v) c.isGreedy store1 fields with
    | none => none
    | some (s1, .error e) => some (s1, .error e)
    | some (s1, .ok pairs1) => some (s1, .ok (.vdict pairs1))
  | .vthunk _ => some (store, .error .notSerializable)
  | .vother => some (store, .error .notSerializable)

/-- `Serializer.__call__` on an instance whose store currently is `store`:
resolve a callable once, then dispatch.  The fuel only bounds recursion
depth (`none` = fuel exhausted); each recursive invocation — an element of
an iterable serialized by the same instance, or a forked fresh instance —
runs on one unit less. -/
def callF : Nat → Config → Store → Value → List String →
    Option (Store × Except SErr Value)
  | 0, _, _, _, _ => none
  | fuel + 1, c, store, value, schema =>
    serializeCall c (fun s v sch => callF fuel c s v sch)
      store (resolveCallable value) schema

/-- The dict branch of the dispatch (`self._set_schema(schema)` followed by
`Serializer.serialize_dict`) as the source writes it.  It is dead code:
the `Iterable` check above it already captures every dict. -/
def serialize_dict (fuel : Nat) (c : Config) (store : Store)
    (pairs : List (String × Value)) (schema : List String) :
    Option (Store × Except SErr (List (String × Value))) :=
  let store1 := set_schema store schema
  serialize_keyed (fun s k v => forkF (fun s0 v0 sub => callF fuel c s0 v0 sub) s k v)
    c.isGreedy store1 pairs

/-- A default configuration: no keyword arguments, so greedy mode is on and
timezone conversion off. -/
def cfg0 : Config := ⟨none, none, none, none⟩

/-- The single key that one `addKey` step of `merge_schemas` removes before
adding `k`: the un-negated form of a negated key, the negated form of a
plain key.  Analysis device for the merge theorems, not a source function. -/
def counterpart (k : String) : String :=
  if is_negation k then admitKey k else negate k

/-- The fate of the string `y` after folding `addKey` over a list of keys:
`some true` when the last step touching `y` inserts it (the element `y`
itself), `some false` when the last touching step erases it (an element
whose counterpart is `y`), `none` when no step touches it.  Later elements
win, hence the recursion consults the tail first.  Analysis device. -/
def lastLook (y : String) : List String → Option Bool
  | [] => none
  | k :: L =>
    match lastLook y L with
    | some b => some b
    | none =>
      if k = y then some true
      else if counterpart k = y then some false else none

/-- `IsIncluded` exactly as claim C4 spells it out, as a chain of checks in
the stated order: unconditional negation wins over everything; then the
wildcard; then plain presence; then the greedy default, which never admits a
key starting with the private marker.  Spec-side definition for the
refinement claim C4. -/
def IsIncludedSpec (greedy : Bool) (s : Store) (key : String) : Bool :=
  if storeLookup s (negate key) = some [] then false
  else if (storeLookup s WILDCARD).isSome then true
  else if (storeLookup s key).isSome then true
  else greedy && !(strStartsWith key "_")

/-! ## String facts about the negation marker -/

lemma data_append (s t : String) : (s ++ t).data = s.data ++ t.data := by
  cases s; cases t; rfl

lemma negate_data (k : String) : (negate k).data = '-' :: k.data := by
  show (NEGATION ++ k).data = _
  rw [data_append]; rfl

lemma is_negation_negate (k : String) : is_negation (negate k) = true := by
  simp [is_negation, strStartsWith, negate_data, NEGATION, List.isPrefixOf]

lemma admitKey_negate (k : String) : admitKey (negate k) = k := by
  unfold admitKey
  rw [is_negation_negate]
  simp only [if_true, negate_data]
  show String.mk (List.drop NEGATION.length ('-' :: k.data)) = k
  cases k; rfl

lemma negate_ne (k : String) : negate k ≠ k := by
  intro h
  have h2 := congrArg String.data h
  rw [negate_data] at h2
  have h3 := congrArg List.length h2
  simp at h3

lemma counterpart_plain {k : String} (h : is_negation k = false) :
    counterpart k = negate k := by
  simp [counterpart, h]

lemma counterpart_negate (k : String) : counterpart (negate k) = k := by
  simp [counterpart, is_negation_negate, admitKey_negate]

/-! ## Membership and invariants of the merge fold -/

lemma guardedErase_mem {res : List String} (h : res.Nodup) (c y : String) :
    (y ∈ (if c ∈ res then res.erase c else res)) ↔ (y ∈ res ∧ y ≠ c) := by
  by_cases hc : c ∈ res
  · simp [hc, h.mem_erase_iff, and_comm]
  · simp only [hc, if_false]
    exact ⟨fun hy => ⟨hy, fun he => hc (he ▸ hy)⟩, fun p => p.1⟩

lemma guardedErase_nodup {res : List String} (h : res.Nodup) (c : String) :
    (if c ∈ res then res.erase c else res).Nodup := by
  split
  · exact h.erase c
  · exact h

lemma addKey_eq (res : List String) (k : String) :
    addKey res k =
      (if k ∈ (if counterpart k ∈ res then res.erase (counterpart k) else res)
       then (if counterpart k ∈ res then res.erase (counterpart k) else res)
       else (if counterpart k ∈ res then res.erase (counterpart k) else res) ++ [k]) := by
  unfold addKey counterpart
  cases is_negation k <;> simp

lemma addKey_mem {res : List String} (h : res.Nodup) (k y : String) :
    y ∈ addKey res k ↔ (y = k ∨ (y ∈ res ∧ y ≠ counterpart k)) := by
  rw [addKey_eq]
  by_cases hk : k ∈ (if counterpart k ∈ res then res.erase (counterpart k) else res)
  · rw [if_pos hk]
    constructor
    · exact fun hy => Or.inr ((guardedErase_mem h _ _).mp hy)
    · rintro (rfl | hp)
      · exact hk
      · exact (guardedErase_mem h _ _).mpr hp
  · rw [if_neg hk]
    simp only [List.mem_append, List.mem_singleton]
    rw [guardedErase_mem h]
    tauto

lemma addKey_nodup {res : List String} (h : res.Nodup) (k : String) :
    (addKey res k).Nodup := by
  rw [addKey_eq]
  have h1 := guardedErase_nodup h (counterpart k)
  by_cases hk : k ∈ (if counterpart k ∈ res then res.erase (counterpart k) else res)
  · rw [if_pos hk]; exact h1
  · rw [if_neg hk]; simp [List.nodup_append, h1, hk]

lemma foldl_addKey_nodup (L : List String) :
    ∀ res : List String, res.Nodup → (L.foldl addKey res).Nodup := by
  induction L with
  | nil => exact fun res h => h
  | cons k L ih => exact fun res h => ih _ (addKey_nodup h k)

lemma foldl_addKey_mem (y : String) : ∀ (L : List String) (res : List String), res.Nodup →
    (y ∈ L.foldl addKey res ↔
      (match lastLook y L with | some b => b = true | none => y ∈ res)) := by
  intro L
  induction L with
  | nil => intro res _; simp [lastLook]
  | cons k L ih =>
    intro res h
    simp only [List.foldl_cons]
    rw [ih (addKey res k) (addKey_nodup h k)]
    cases hl : lastLook y L with
    | some b => simp [lastLook, hl]
    | none =>
      simp only [lastLook, hl]
      rw [addKey_mem h]
      by_cases hky : k = y
      · rw [if_pos hky]
        subst hky
        simp
      · rw [if_neg hky]
        by_cases hcy : counterpart k = y
        · rw [if_pos hcy]
          subst hcy
          constructor
          · rintro (he | hp)
            · exact absurd he.symm hky
            · exact absurd rfl hp.2
          · intro hf
            exact absurd hf Bool.false_ne_true
        · rw [if_neg hcy]
          show (y = k ∨ (y ∈ res ∧ y ≠ counterpart k)) ↔ y ∈ res
          constructor
          · rintro (he | hp)
            · exact absurd he (fun h2 => hky h2.symm)
            · exact hp.1
          · exact fun hy => Or.inr ⟨hy, fun he => hcy he.symm⟩

lemma merge_join (args : List (List String)) :
    merge_schemas args = (args.flatten).foldl addKey [] := by
  unfold merge_schemas
  have main : ∀ (as : List (List String)) (res : List String),
      as.foldl (fun r keys => keys.foldl addKey r) res = (as.flatten).foldl addKey res := by
    intro as
    induction as with
    | nil => intro res; simp [List.flatten]
    | cons keys as ih => intro res; simp [List.flatten, List.foldl_append, ih]
  exact main args []

lemma lastLook_append (y : String) (L1 L2 : List String) :
    lastLook y (L1 ++ L2) =
      (match lastLook y L2 with | some b => some b | none => lastLook y L1) := by
  induction L1 with
  | nil =>
    cases hl : lastLook y L2 <;> simp [lastLook, hl]
  | cons k L1 ih =>
    simp only [List.cons_append, lastLook, List.append_eq, ih]
    cases hl2 : lastLook y L2 with
    | some b => simp
    | none => simp [lastLook]

/-! ## Frame lemmas for the store -/

lemma processNegTails_ok : ∀ {ts ts' : List (List String)},
    processNegTails ts = .ok ts' → ts' = ts.map negateHead := by
  intro ts
  induction ts with
  | nil =>
    intro ts' h
    simp only [processNegTails] at h
    injection h with h1
    rw [← h1]
    rfl
  | cons t ts ih =>
    intro ts' h
    by_cases ht : t = []
    · rw [processNegTails, if_pos ht] at h
      cases h
    · rw [processNegTails, if_neg ht] at h
      cases hp : processNegTails ts with
      | error e => rw [hp] at h; cases h
      | ok rest =>
        rw [hp] at h
        injection h with h1
        rw [← h1, ih hp]
        rfl

lemma storeLookup_storeSet_self (s : Store) (k : String) (v : List (List String)) :
    storeLookup (storeSet s k v) k = some v := by
  induction s with
  | nil => simp [storeSet, storeLookup]
  | cons p rest ih =>
    obtain ⟨k1, v1⟩ := p
    by_cases hk : k1 = k <;> simp [storeSet, storeLookup, hk, ih]

lemma storeLookup_storeSet_ne (s : Store) (k : String) (v : List (List String))
    {j : String} (h : j ≠ k) :
    storeLookup (storeSet s k v) j = storeLookup s j := by
  induction s with
  | nil =>
    simp only [storeSet, storeLookup]
    rw [if_neg (fun he : k = j => h he.symm)]
  | cons p rest ih =>
    obtain ⟨k1, v1⟩ := p
    by_cases hk : k1 = k
    · subst hk
      simp only [storeSet, if_pos rfl, storeLookup]
      rw [if_neg (fun he : k1 = j => h he.symm), if_neg (fun he : k1 = j => h he.symm)]
    · simp only [storeSet, if_neg hk, storeLookup]
      by_cases hj : k1 = j
      · rw [if_pos hj, if_pos hj]
      · rw [if_neg hj, if_neg hj]
        exact ih

/-- For a plain key `k` (no leading negation marker), the fates of `k` and
of `negate k` under the merge fold are linked: whichever of the two forms
was added last, the other one was erased by that very step, because the
element `k` has counterpart `negate k` and the element `negate k` has
counterpart `k`. -/
lemma lastLook_pair (k : String) (hk : is_negation k = false) : ∀ L : List String,
    (lastLook k L = some true → lastLook (negate k) L = some false) ∧
    (lastLook (negate k) L = some true → lastLook k L = some false) := by
  intro L
  induction L with
  | nil =>
    exact ⟨fun h => by simp [lastLook] at h, fun h => by simp [lastLook] at h⟩
  | cons j L ih =>
    obtain ⟨ih1, ih2⟩ := ih
    constructor
    · intro h1
      cases ha : lastLook k L with
      | some b =>
        have hb : b = true := by
          simp only [lastLook, ha] at h1
          injection h1
        have h2 := ih1 (hb ▸ ha)
        simp [lastLook, h2]
      | none =>
        simp only [lastLook, ha] at h1
        by_cases hj : j = k
        · cases hb : lastLook (negate k) L with
          | some b2 =>
            cases b2 with
            | true => exact absurd (ih2 hb) (by rw [ha]; exact fun he => by cases he)
            | false => simp [lastLook, hb]
          | none =>
            simp only [lastLook, hb]
            rw [if_neg (fun he : j = negate k => negate_ne k (he ▸ hj.symm ▸ rfl))]
            · rw [if_pos (by rw [hj, counterpart_plain hk])]
        · rw [if_neg hj] at h1
          by_cases hc : counterpart j = k
          · rw [if_pos hc] at h1
            cases h1
          · rw [if_neg hc] at h1
            cases h1
    · intro h1
      cases ha : lastLook (negate k) L with
      | some b =>
        have hb : b = true := by
          simp only [lastLook, ha] at h1
          injection h1
        have h2 := ih2 (hb ▸ ha)
        simp [lastLook, h2]
      | none =>
        simp only [lastLook, ha] at h1
        by_cases hj : j = negate k
        · cases hb : lastLook k L with
          | some b2 =>
            cases b2 with
            | true => exact absurd (ih1 hb) (by rw [ha]; exact fun he => by cases he)
            | false => simp [lastLook, hb]
          | none =>
            simp only [lastLook, hb]
            rw [if_neg (fun he : j = k => negate_ne k (hj ▸ he))]
            · rw [if_pos (by rw [hj, counterpart_negate])]
        · rw [if_neg hj] at h1
          by_cases hc : counterpart j = negate k
          · rw [if_pos hc] at h1
            cases h1
          · rw [if_neg hc] at h1
            cases h1

/-- One-layer unfolding of `callF`, used to rewrite exactly one dispatch
step without touching the recursive occurrences. -/
lemma callF_succ (fuel : Nat) (c : Config) (store : Store) (value : Value)
    (schema : List String) :
    callF (fuel + 1) c store value schema =
      serializeCall c (fun s v sch => callF fuel c s v sch)
        store (resolveCallable value) schema := rfl

/-- A simple-typed value short-circuits the dispatch: the primitive check of
`__call__` comes before every other branch, so the value is returned as is
and the store is untouched.  Shared helper behind C10, C7 and C8. -/
lemma callF_simple (fuel : Nat) (c : Config) (store : Store) (v : Value)
    (schema : List String) (h : isSimple v = true) :
    callF (fuel + 1) c store v schema = some (store, .ok v) := by
  cases v <;> simp_all [callF, serializeCall, resolveCallable, isSimple]

/-- A value of unrecognized shape (after the one callable-resolution step)
falls through every dispatch branch and raises `IsNotSerializable`.
Shared helper behind C8. -/
lemma callF_unrecognized (fuel : Nat) (c : Config) (store : Store) (v : Value)
    (schema : List String) (h : recognizedShape (resolveCallable v) = false) :
    callF (fuel + 1) c store v schema = some (store, .error .notSerializable) := by
  cases v with
  | vthunk w => cases w <;> simp_all [callF, serializeCall, resolveCallable, recognizedShape]
  | vother => simp [callF, serializeCall, resolveCallable]
  | _ => simp [recognizedShape, resolveCallable] at h

/-! ## The claims -/

/-- C1: the spec says a mapping is serialized as a keyed structure under the
given schema and never as the sequence of its keys.  The code does the
opposite: `isinstance(value, Iterable)` is tested before
`isinstance(value, dict)` and a Python dict is `Iterable`, so the dict
`{"a": 1}` under schema `["a"]` comes back as the list `["a"]` of its keys
(first conjunct), while the unreachable dict branch `serialize_dict` would
have produced the keyed structure `{"a": 1}` the spec describes (second
conjunct). -/
theorem c1 :
    callF 2 cfg0 [] (.vdict [("a", .vint 1)]) ["a"] =
      some ([], .ok (.vlist [.vstr "a"])) ∧
    serialize_dict 1 cfg0 [] [("a", .vint 1)] ["a"] =
      some ([("a", [])], .ok [("a", .vint 1)]) :=
  ⟨rfl, rfl⟩

/-- C2, counterexample: the claim says no operation after the first schema
application changes the store's contents, in particular `_get_sub_schema`.
But on the store loaded from `['-a.b']` the call `_get_sub_schema('a')`
rewrites the stored tail `['b']` in place into `['-b']` (the in-place
`k[0] = self._negate(k[0])`), so the store after the call differs from the
store before it. -/
theorem c2_counterexample :
    set_schema [] ["-a.b"] = [("-a", [["b"]])] ∧
    get_sub_schema [("-a", [["b"]])] "a" = .ok ([("-a", [["-b"]])], ["-b"]) ∧
    ([("-a", [["-b"]])] : Store) ≠ [("-a", [["b"]])] :=
  ⟨rfl, rfl, by decide⟩

/-- C2, amended: after the schema is first applied, the only later change to
the store is the in-place rewrite performed by `_get_sub_schema(key)`: every
entry other than the one at the negated key is untouched, and the entry at
the negated key keeps exactly its stored tails with the negation marker
moved onto each tail's first segment. -/
theorem c2_amended (store : Store) (key : String) (store1 : Store)
    (sub : List String) (h : get_sub_schema store key = .ok (store1, sub)) :
    (∀ j, j ≠ negate key → storeLookup store1 j = storeLookup store j) ∧
    storeLookup store1 (negate key) =
      (storeLookup store (negate key)).map (fun ts => ts.map negateHead) := by
  cases hneg : storeLookup store (negate key) with
  | none =>
    rw [get_sub_schema, hneg] at h
    simp only [Option.getD, processNegTails] at h
    injection h with h1
    injection h1 with h2 h3
    rw [← h2]
    exact ⟨fun j _ => rfl, by rw [hneg]; rfl⟩
  | some ts =>
    rw [get_sub_schema, hneg] at h
    simp only [Option.getD] at h
    cases hp : processNegTails ts with
    | error e => rw [hp] at h; cases h
    | ok ts1 =>
      rw [hp] at h
      simp only at h
      injection h with h1
      injection h1 with h2 h3
      rw [← h2]
      constructor
      · exact fun j hj => storeLookup_storeSet_ne store (negate key) ts1 hj
      · rw [storeLookup_storeSet_self, processNegTails_ok hp]
        rfl

/-- C2, witness for the amended theorem at the counterexample's store. -/
theorem c2_amended_witness :
    storeLookup [("-a", [["-b"]])] (negate "a") =
      (storeLookup [("-a", [["b"]])] (negate "a")).map (fun ts => ts.map negateHead) :=
  (c2_amended [("-a", [["b"]])] "a" [("-a", [["-b"]])] ["-b"] rfl).2

/-- C3: the claim (and the spec's error-handling section) demands a fatal
configuration error when a negated key stored with an empty tail list is
asked for a sub-schema.  The code never raises it there: loading `['-a']`
stores `'-a' ↦ []` (first conjunct), and `_get_sub_schema('a')` then
silently returns an empty sub-schema with no error, because its guard
`if not k: raise` sits inside the loop over the stored tails and the loop
body never runs on an empty tail list (second conjunct).  The guard fires
only for an empty tail inside the list — a store `'-a' ↦ [[]]` that
`_set_schema` can never produce (third conjunct). -/
theorem c3 :
    set_schema [] ["-a"] = [("-a", [])] ∧
    get_sub_schema [("-a", [])] "a" = .ok ([("-a", [])], []) ∧
    get_sub_schema [("-a", [[]])] "a" = .error .configError :=
  ⟨rfl, rfl, rfl⟩

/-- C4: `_is_valid` decides inclusion exactly in the claimed order —
unconditional negation (negated key stored with empty tail list) wins over
everything, then the wildcard includes, then plain presence includes, and
otherwise the key is included exactly when the greedy flag is set and the
key does not start with the private marker.  `IsIncludedSpec` is that
claimed chain of checks verbatim. -/
theorem c4 (greedy : Bool) (s : Store) (key : String) :
    is_valid greedy s key = IsIncludedSpec greedy s key := by
  unfold is_valid IsIncludedSpec
  by_cases h1 : storeLookup s (negate key) = some []
  · rw [if_pos h1, if_pos h1]
  · rw [if_neg h1, if_neg h1]
    by_cases h2 : (storeLookup s WILDCARD).isSome = true
    · rw [if_pos h2, if_pos h2]
    · rw [if_neg h2, if_neg h2]
      cases h3 : (storeLookup s key).isSome with
      | true => rw [if_pos rfl]; rfl
      | false => rw [if_neg (by simp)]; rfl

/-- C5: `merge_schemas` folds its argument lists from lowest to highest
priority, and each added path string first removes its opposite-polarity
counterpart; hence merging `['-x']` (lower priority) with `['x']` (higher
priority) leaves `x` included — the plain form survives and the negated form
does not — for any plain key `x`. -/
theorem c5 (x : String) (h : is_negation x = false) :
    x ∈ merge_schemas [[negate x], [x]] ∧
    negate x ∉ merge_schemas [[negate x], [x]] := by
  have hm : merge_schemas [[negate x], [x]] = [x] := by
    show (addKey (addKey [] (negate x)) x) = [x]
    have h1 : addKey [] (negate x) = [negate x] := by
      rw [addKey_eq]
      simp
    rw [h1, addKey_eq, counterpart_plain h]
    simp [List.erase_cons_head, negate_ne x]
  rw [hm]
  exact ⟨List.mem_singleton.mpr rfl,
    fun hmem => negate_ne x (List.mem_singleton.mp hmem)⟩

/-- C5, witness at the concrete key `x`. -/
theorem c5_witness :
    is_negation "x" = false ∧
    ("x" ∈ merge_schemas [[negate "x"], ["x"]] ∧
      negate "x" ∉ merge_schemas [[negate "x"], ["x"]]) :=
  ⟨rfl, c5 "x" rfl⟩

/-- C6: `merge_schemas` is idempotent under self-repetition — merging a list
with itself at higher priority leaves the surviving set of path strings
unchanged, because for every string the last fold step touching it is the
same in both runs. -/
theorem c6 (L : List String) (y : String) :
    y ∈ merge_schemas [L, L] ↔ y ∈ merge_schemas [L] := by
  rw [merge_join, merge_join]
  simp only [List.flatten, List.append_nil]
  rw [foldl_addKey_mem y (L ++ L) [] List.nodup_nil,
    foldl_addKey_mem y L [] List.nodup_nil]
  rw [lastLook_append]
  cases hl : lastLook y L <;> simp

/-- C9, counterexample: the claim says the merge result never contains a
path string together with its negated form.  It does when the string itself
starts with the negation marker: adding `'-y'` removes the plain `'y'`, not
`'--y'`, so `merge_schemas [['--y', '-y']]` contains both `'-y'` and its
negated form `'--y'`. -/
theorem c9_counterexample :
    negate "-y" = "--y" ∧
    "-y" ∈ merge_schemas [["--y", "-y"]] ∧
    "--y" ∈ merge_schemas [["--y", "-y"]] :=
  ⟨rfl, by decide, by decide⟩

/-- C9, amended: for every path string `k` that is not itself negated, the
merge result never contains both `k` and its negated form — every add step
removes exactly the opposite-polarity counterpart, which for the pair
`(k, -k)` with plain `k` is always the other member of the pair.  For keys
already carrying the marker the invariant fails (see the counterexample). -/
theorem c9_amended (args : List (List String)) (k : String)
    (h : is_negation k = false) :
    ¬(k ∈ merge_schemas args ∧ negate k ∈ merge_schemas args) := by
  rintro ⟨h1, h2⟩
  rw [merge_join] at h1 h2
  rw [foldl_addKey_mem k (args.flatten) [] List.nodup_nil] at h1
  rw [foldl_addKey_mem (negate k) (args.flatten) [] List.nodup_nil] at h2
  cases hl1 : lastLook k args.flatten with
  | none => rw [hl1] at h1; exact (List.not_mem_nil k) h1
  | some b1 =>
    rw [hl1] at h1
    cases hl2 : lastLook (negate k) args.flatten with
    | none => rw [hl2] at h2; exact (List.not_mem_nil (negate k)) h2
    | some b2 =>
      rw [hl2] at h2
      have ht1 : lastLook k args.flatten = some true := by rw [hl1, h1]
      have := (lastLook_pair k h args.flatten).1 ht1
      rw [hl2, h2] at this
      cases this

/-- C9, witness for the amended theorem: merging `['x', '-x']` leaves only
the negated form. -/
theorem c9_amended_witness :
    ¬("x" ∈ merge_schemas [["x", "-x"]] ∧
      negate "x" ∈ merge_schemas [["x", "-x"]]) :=
  c9_amended [["x", "-x"]] "x" rfl

/-- C10: a value of one of the simple types (int, str, float, bytes, bool,
None) is returned unchanged with the store untouched: the primitive check of
the dispatch precedes the iterable check, so strings and byte sequences —
though iterable in Python — are never decomposed into per-character
sequences. -/
theorem c10 (fuel : Nat) (c : Config) (store : Store) (v : Value)
    (schema : List String) (h : isSimple v = true) :
    callF (fuel + 1) c store v schema = some (store, .ok v) :=
  callF_simple fuel c store v schema h

/-- C10, witness at a concrete string. -/
theorem c10_witness :
    isSimple (Value.vstr "hello") = true ∧
    callF 1 cfg0 [] (.vstr "hello") ["x"] = some ([], .ok (.vstr "hello")) :=
  ⟨rfl, c10 0 cfg0 [] (.vstr "hello") ["x"] rfl⟩

/-- Helper: a list of simple-typed elements is serialized element by
element, each returned unchanged, with the store untouched. -/
lemma serialize_iter_simple (fuel : Nat) (c : Config) :
    ∀ (vs : List Value) (store : Store), (∀ v ∈ vs, isSimple v = true) →
    serialize_iter (fun s v => callF (fuel + 1) c s v []) store vs =
      some (store, .ok vs) := by
  intro vs
  induction vs with
  | nil => intro store _; rfl
  | cons v vs ih =>
    intro store hall
    have hv := hall v (List.mem_cons_self v vs)
    have hrest := ih store (fun w hw => hall w (List.mem_cons_of_mem v hw))
    simp only [serialize_iter]
    rw [callF_simple fuel c store v [] hv]
    simp [hrest]

/-- Helper: inside `serialize_iter`, an element whose serialization raises
`IsNotSerializable` is skipped, and every other (here: simple-typed) element
before and after it is still produced, in order. -/
lemma serialize_iter_skip (fuel : Nat) (c : Config) (store : Store) (bad : Value)
    (hbad : callF (fuel + 1) c store bad [] = some (store, .error .notSerializable)) :
    ∀ (pre : List Value), (∀ v ∈ pre, isSimple v = true) →
    ∀ (post : List Value), (∀ v ∈ post, isSimple v = true) →
    serialize_iter (fun s v => callF (fuel + 1) c s v []) store (pre ++ bad :: post) =
      some (store, .ok (pre ++ post)) := by
  intro pre
  induction pre with
  | nil =>
    intro _ post hpost
    simp only [List.nil_append, serialize_iter]
    rw [hbad]
    exact serialize_iter_simple fuel c post store hpost
  | cons v pre ih =>
    intro hpre post hpost
    have hv := hpre v (List.mem_cons_self v pre)
    simp only [List.cons_append, serialize_iter]
    rw [callF_simple fuel c store v [] hv]
    simp [List.append_eq, ih (fun w hw => hpre w (List.mem_cons_of_mem v hw)) post hpost]

/-- Helper: in a keyed (model) context, `IsNotSerializable` raised while
forking a field is not caught: it discards the partial result and propagates
out of the whole call. -/
lemma model_propagates (fuel : Nat) (c : Config) (hg : c.isGreedy = true) :
    callF (fuel + 1 + 1) c [] (.vmodel [] [("a", .vother)]) [] =
      some ([], .error .notSerializable) := by
  have hother : callF (fuel + 1) c [] Value.vother [] =
      some ([], .error .notSerializable) := rfl
  have hvalid : is_valid c.isGreedy [] "a" = true := by
    rw [hg]; decide
  have hstore : set_schema [] (merge_schemas [[], []]) = [] := rfl
  have hsub : get_sub_schema [] "a" = .ok ([], []) := rfl
  rw [callF_succ]
  simp only [serializeCall, resolveCallable]
  rw [hstore]
  simp [serialize_keyed, hvalid, forkF, hsub, hother]
  rfl

/-- C8: `IsNotSerializable` is raised exactly by the final dispatch branch —
for every value whose shape (after the one callable-resolution step) is none
of the recognized categories (first conjunct); when an element of an
iterable raises it, it is caught locally and only that element is omitted,
all other elements still being produced in order (second conjunct); in a
keyed-structure context it is not caught and propagates to the caller
(third conjunct). -/
theorem c8 :
    (∀ (fuel : Nat) (c : Config) (store : Store) (v : Value) (schema : List String),
      recognizedShape (resolveCallable v) = false →
      callF (fuel + 1) c store v schema = some (store, .error .notSerializable)) ∧
    (∀ (fuel : Nat) (c : Config) (store : Store) (pre : List Value) (bad : Value)
      (post : List Value),
      (∀ v ∈ pre, isSimple v = true) → (∀ v ∈ post, isSimple v = true) →
      callF (fuel + 1) c store bad [] = some (store, .error .notSerializable) →
      callF (fuel + 1 + 1) c store (.vlist (pre ++ bad :: post)) [] =
        some (store, .ok (.vlist (pre ++ post)))) ∧
    (∀ (fuel : Nat) (c : Config), c.isGreedy = true →
      callF (fuel + 1 + 1) c [] (.vmodel [] [("a", .vother)]) [] =
        some ([], .error .notSerializable)) := by
  refine ⟨fun fuel c store v schema h => callF_unrecognized fuel c store v schema h,
    ?_, fun fuel c hg => model_propagates fuel c hg⟩
  intro fuel c store pre bad post hpre hpost hbad
  have hiter := serialize_iter_skip fuel c store bad hbad pre hpre post hpost
  rw [callF_succ]
  simp only [serializeCall, resolveCallable]
  rw [hiter]

/-- C8, witness: the three conjuncts at concrete inputs — an unrecognized
value raises, the iterable `[1, <bad>, "s"]` drops only the bad element, and
the model field forwarding the error fails the whole call. -/
theorem c8_witness :
    callF 1 cfg0 [] .vother [] = some ([], .error .notSerializable) ∧
    callF 2 cfg0 [] (.vlist [.vint 1, .vother, .vstr "s"]) [] =
      some ([], .ok (.vlist [.vint 1, .vstr "s"])) ∧
    callF 2 cfg0 [] (.vmodel [] [("a", .vother)]) [] =
      some ([], .error .notSerializable) :=
  ⟨c8.1 0 cfg0 [] .vother [] rfl,
    c8.2.1 0 cfg0 [] [.vint 1] .vother [.vstr "s"] (by decide) (by decide) rfl,
    c8.2.2 0 cfg0 rfl⟩

/-- C7: `_get_sub_schema` and the per-field fork decompose a dotted schema
one level at a time.  Serializing a structure with field `a` under schema
`['a.b', 'a.c']` yields, as the sub-result for `a`, exactly the result of
serializing the field's value with schema `['b', 'c']` — which is what
serializing under `['a']` (where `a` forks with an empty sub-schema) and
then manually recursing on the field's value with `['b', 'c']` produces.
The equality holds for every field value, every configuration and every
sufficient recursion depth, whether the nested serialization succeeds,
fails, or the value is primitive (the fork's fast path). -/
theorem c7 (fuel : Nat) (c : Config) (N : Value) :
    (callF (fuel + 1 + 1) c [] (.vmodel [] [("a", N)]) ["a.b", "a.c"]).map
        (fun p => p.2) =
      (callF (fuel + 1) c [] N ["b", "c"]).map
        (fun p => p.2.map (fun x => Value.vdict [("a", x)])) := by
  have hstore : set_schema [] (merge_schemas [[], ["a.b", "a.c"]]) =
      [("a", [["b"], ["c"]])] := rfl
  have hvalid : is_valid c.isGreedy [("a", [["b"], ["c"]])] "a" = true := by
    cases c.isGreedy <;> decide
  have hsub : get_sub_schema [("a", [["b"], ["c"]])] "a" =
      .ok ([("a", [["b"], ["c"]])], ["b", "c"]) := rfl
  conv_lhs => rw [callF_succ]
  simp only [serializeCall, resolveCallable]
  rw [hstore]
  by_cases hN : isSimple N = true
  · have hrecN := callF_simple fuel c [] N ["b", "c"] hN
    simp [serialize_keyed, hvalid, forkF, hN, hsub, hrecN, Except.map]
  · cases hrec : callF (fuel + 1) c [] N ["b", "c"] with
    | none => simp [serialize_keyed, hvalid, forkF, hN, hsub, hrec]
    | some p =>
      obtain ⟨s1, r⟩ := p
      cases r with
      | error e => simp [serialize_keyed, hvalid, forkF, hN, hsub, hrec, Except.map]
      | ok x => simp [serialize_keyed, hvalid, forkF, hN, hsub, hrec, Except.map]

end ToDict
